import Mathlib

/-!
Shallow embedding of `src/hnsw/utils.c` from the lantern repository: the
version compatibility gate (`VersionsMatch`), the node label codec
(`GetUsearchLabel`), the memory budget estimator (`CheckMem`), the option
projector (`PopulateUsearchOpts`) and the vector normalizer
(`ToFloat4Array`), together with theorems settling the spec's claims about
them.

Modelling conventions:
* C strings are lists of byte values (`List Nat`); the terminating NUL is
  implicit at the end of the list, so the modelled strings are NUL-free.
* The PostgreSQL SPI machinery, the active-snapshot test and the engine
  metadata are external collaborators; they enter as explicit environment
  records.
* Machine integers are `Nat`/`Int` with explicit `% 2 ^ 32` / `% 2 ^ 64`
  where the C code computes in `uint32` / `Size`.
-/

/-- C `strncmp` on NUL-terminated byte strings: the end of a list stands for
the terminating NUL byte, so comparison stops at a list end, at the first
differing byte, or after `n` bytes, whichever comes first. -/
def strncmp : List Nat → List Nat → Nat → Int
  | _, _, 0 => 0
  | [], [], _ + 1 => 0
  | [], b :: _, _ + 1 => 0 - (b : Int)
  | a :: _, [], _ + 1 => (a : Int)
  | a :: as, b :: bs, n + 1 => if a = b then strncmp as bs n else (a : Int) - (b : Int)

/-- The process-wide version cache: the globals `version_checked` and
`versions_match` of `src/hnsw/utils.c` (both initialised to `false`). -/
structure VersionState where
  version_checked : Bool
  versions_match : Bool
deriving DecidableEq

/-- External environment observed by one call to `VersionsMatch`: whether an
active snapshot is set, how SPI behaves, and the `extversion` string the
schema-metadata query would return. -/
structure GateEnv where
  snapshot_set : Bool
  connect_ok : Bool
  exec_ok : Bool
  processed : Nat
  isnull : Bool
  extversion : List Nat
deriving DecidableEq

/-- The fatal `elog(ERROR, ...)` exits of `VersionsMatch`. -/
inductive GateError where
  | connectFail
  | execFail
  | badRowCount
  | nullVersion
deriving DecidableEq

/-- A version-mismatch warning; the C code passes both `LDB_BINARY_VERSION`
and the queried version string to `elog(WARNING, ...)`. -/
structure MismatchWarning where
  binary_version : List Nat
  sql_version : List Nat
deriving DecidableEq

/-- Observable outcome of one call to `VersionsMatch`: how many SPI queries
were issued, which warnings were emitted, and either a fatal error or the
returned boolean together with the new global state. -/
structure GateOutcome where
  queries : Nat
  warnings : List MismatchWarning
  result : Except GateError (Bool × VersionState)

/-- `VersionsMatch` from `src/hnsw/utils.c` as a pure state transformer.
`binary` is the compiled-in `LDB_BINARY_VERSION` (a NUL-free byte string, so
`sizeof(LDB_BINARY_VERSION) = binary.length + 1`).  Faithful to the source:
* no active snapshot: reset both globals to `false` and return `true`;
* already checked: return the cached `versions_match`, no query;
* otherwise connect to SPI, run the single `extversion` query, demand one
  non-null row, compare with `strncmp` over
  `if sizeof(binary) >= strlen(version) then sizeof(binary) else strlen(version)`
  bytes, set `versions_match` only when the comparison is `0`, set
  `version_checked`, and warn (naming both strings) when the result is a
  mismatch. -/
def VersionsMatch (binary : List Nat) (env : GateEnv) (st : VersionState) : GateOutcome :=
  if !env.snapshot_set then
    { queries := 0, warnings := [], result := .ok (true, ⟨false, false⟩) }
  else if st.version_checked then
    { queries := 0, warnings := [], result := .ok (st.versions_match, st) }
  else if !env.connect_ok then
    { queries := 0, warnings := [], result := .error .connectFail }
  else if !env.exec_ok then
    { queries := 1, warnings := [], result := .error .execFail }
  else if env.processed ≠ 1 then
    { queries := 1, warnings := [], result := .error .badRowCount }
  else if env.isnull then
    { queries := 1, warnings := [], result := .error .nullVersion }
  else
    let version := env.extversion
    let version_length :=
      if binary.length + 1 ≥ version.length then binary.length + 1 else version.length
    let vmatch := if strncmp version binary version_length = 0 then true else st.versions_match
    { queries := 1,
      warnings := if vmatch then [] else [⟨binary, version⟩],
      result := .ok (vmatch, ⟨true, vmatch⟩) }

/-- Claim C2: whenever no active transactional snapshot is established,
`VersionsMatch` returns `true` regardless of the cached state or of the
actual version situation, issues no query, emits no warning, and resets the
process-wide state to `{checked := false, matches := false}`. -/
theorem versionsMatch_soft_pass (binary : List Nat) (env : GateEnv) (st : VersionState)
    (h : env.snapshot_set = false) :
    VersionsMatch binary env st =
      { queries := 0, warnings := [], result := .ok (true, ⟨false, false⟩) } := by
  simp [VersionsMatch, h]

/-- Witness for claim C2: a concrete call with a cached mismatch
(`checked = true`, `matches = false`) and a mismatching stored version still
soft-passes when no snapshot is set. -/
theorem versionsMatch_soft_pass_witness :
    VersionsMatch [48, 46, 49] ⟨false, true, true, 1, false, [48, 46, 50]⟩ ⟨true, false⟩ =
      { queries := 0, warnings := [], result := .ok (true, ⟨false, false⟩) } :=
  versionsMatch_soft_pass [48, 46, 49] ⟨false, true, true, 1, false, [48, 46, 50]⟩
    ⟨true, false⟩ rfl

/-- Claim C3: once the state is Checked (`version_checked = true`), a call
made while a snapshot is active returns exactly the cached boolean, issues
zero queries, emits no warning, and leaves the state untouched — so every
subsequent call is identical. -/
theorem versionsMatch_cached_idempotent (binary : List Nat) (env : GateEnv) (st : VersionState)
    (hs : env.snapshot_set = true) (hc : st.version_checked = true) :
    VersionsMatch binary env st =
      { queries := 0, warnings := [], result := .ok (st.versions_match, st) } := by
  simp [VersionsMatch, hs, hc]

/-- Witness for claim C3: a concrete Checked-Mismatch state is returned
unchanged, with the cached `false` and zero queries, even though the
environment would let a fresh query succeed with a matching version. -/
theorem versionsMatch_cached_idempotent_witness :
    VersionsMatch [48, 46, 49] ⟨true, true, true, 1, false, [48, 46, 49]⟩ ⟨true, false⟩ =
      { queries := 0, warnings := [], result := .ok (false, ⟨true, false⟩) } :=
  versionsMatch_cached_idempotent [48, 46, 49] ⟨true, true, true, 1, false, [48, 46, 49]⟩
    ⟨true, false⟩ rfl rfl

/-- Over a length at least `max` of the two lengths, `strncmp` on NUL-free
byte strings returns `0` exactly when the strings are equal: any length
difference is exposed because the shorter string's terminating NUL differs
from the longer string's next (non-NUL) byte. -/
theorem strncmp_eq_zero_iff (v c : List Nat) (n : Nat)
    (hv : ∀ b ∈ v, b ≠ 0) (hc : ∀ b ∈ c, b ≠ 0)
    (hn : max v.length c.length ≤ n) :
    (strncmp v c n = 0 ↔ v = c) := by
  induction v generalizing c n with
  | nil =>
    cases c with
    | nil => cases n <;> simp [strncmp]
    | cons b bs =>
      have hb : b ≠ 0 := hc b (List.mem_cons_self b bs)
      simp only [List.length_nil, List.length_cons] at hn
      cases n with
      | zero => omega
      | succ m =>
        simp only [strncmp]
        constructor
        · intro h
          exfalso
          omega
        · intro h
          simp at h
  | cons a as ih =>
    cases c with
    | nil =>
      have ha : a ≠ 0 := hv a (List.mem_cons_self a as)
      simp only [List.length_cons, List.length_nil] at hn
      cases n with
      | zero => omega
      | succ m =>
        simp only [strncmp]
        constructor
        · intro h
          exfalso
          omega
        · intro h
          simp at h
    | cons b bs =>
      simp only [List.length_cons] at hn
      cases n with
      | zero => omega
      | succ m =>
        have has : ∀ x ∈ as, x ≠ 0 := fun x hx => hv x (List.mem_cons_of_mem a hx)
        have hbs : ∀ x ∈ bs, x ≠ 0 := fun x hx => hc x (List.mem_cons_of_mem b hx)
        by_cases hab : a = b
        · subst hab
          have hstep : strncmp (a :: as) (a :: bs) (m + 1) = strncmp as bs m := by
            simp [strncmp]
          rw [hstep, ih bs m has hbs (by omega)]
          simp
        · simp only [strncmp, if_neg hab]
          constructor
          · intro h
            exfalso
            omega
          · intro h
            simp only [List.cons.injEq] at h
            exact absurd h.1 hab

/-- Comparing a NUL-free byte string with itself gives `0` for every length
bound. -/
theorem strncmp_self (v : List Nat) (n : Nat) : strncmp v v n = 0 := by
  induction v generalizing n with
  | nil => cases n <;> simp [strncmp]
  | cons a as ih =>
    cases n with
    | zero => simp [strncmp]
    | succ m => simp [strncmp, ih]

/-- Claim C1: in the checking path (snapshot set, state Unchecked), the
queried and compiled version strings compare equal exactly when they are
identical — the comparison length, derived from the longer of the two
strings, makes a strict prefix (such as queried `0.1` against compiled
`0.1.2`) compare unequal — identical strings compare as a match, and on a
mismatch the emitted warning carries both version strings.  The second
conjunct records that a byte-for-byte `strncmp` over
`max (len queried) (len compiled)` bytes gives the same verdict as the
code's length bound. -/
theorem versionsMatch_comparison (binary : List Nat) (env : GateEnv) (st : VersionState)
    (hs : env.snapshot_set = true) (hchk : st.version_checked = false)
    (hmat : st.versions_match = false)
    (hconn : env.connect_ok = true) (hexec : env.exec_ok = true)
    (hrows : env.processed = 1) (hnull : env.isnull = false)
    (hb : ∀ b ∈ binary, b ≠ 0) (hvz : ∀ b ∈ env.extversion, b ≠ 0) :
    ((VersionsMatch binary env st).result = .ok (true, ⟨true, true⟩) ↔ env.extversion = binary)
    ∧ (strncmp env.extversion binary (max env.extversion.length binary.length) = 0
        ↔ env.extversion = binary)
    ∧ (env.extversion = binary → (VersionsMatch binary env st).warnings = [])
    ∧ (env.extversion ≠ binary →
        (VersionsMatch binary env st).result = .ok (false, ⟨true, false⟩)
        ∧ (VersionsMatch binary env st).warnings = [⟨binary, env.extversion⟩]) := by
  have hL : max env.extversion.length binary.length ≤
      (if binary.length + 1 ≥ env.extversion.length then binary.length + 1
        else env.extversion.length) := by
    split <;> omega
  have hcmp := strncmp_eq_zero_iff env.extversion binary _ hvz hb hL
  have hcmp2 := strncmp_eq_zero_iff env.extversion binary
    (max env.extversion.length binary.length) hvz hb le_rfl
  by_cases hv : env.extversion = binary
  · refine ⟨?_, by simpa [hv] using hcmp2, ?_, ?_⟩ <;>
      simp [VersionsMatch, hs, hchk, hmat, hconn, hexec, hrows, hnull, hv, strncmp_self]
  · have hz : strncmp env.extversion binary
        (if binary.length + 1 ≥ env.extversion.length then binary.length + 1
          else env.extversion.length) ≠ 0 := fun h => hv (hcmp.mp h)
    refine ⟨?_, by simpa [hv] using hcmp2, ?_, ?_⟩ <;>
      simp [VersionsMatch, hs, hchk, hmat, hconn, hexec, hrows, hnull, hz, hv]

/-- Witness for claim C1: with compiled version `0.1.2` (bytes
`[48, 46, 49, 46, 50]`) and queried version `0.1` (bytes `[48, 46, 49]`) —
a strict prefix — the gate records a mismatch and warns naming both
strings; the same call with queried `0.1.2` matches. -/
theorem versionsMatch_comparison_witness :
    ((VersionsMatch [48, 46, 49, 46, 50] ⟨true, true, true, 1, false, [48, 46, 49]⟩
        ⟨false, false⟩).result = .ok (false, ⟨true, false⟩)
      ∧ (VersionsMatch [48, 46, 49, 46, 50] ⟨true, true, true, 1, false, [48, 46, 49]⟩
          ⟨false, false⟩).warnings = [⟨[48, 46, 49, 46, 50], [48, 46, 49]⟩])
    ∧ ((VersionsMatch [48, 46, 49, 46, 50] ⟨true, true, true, 1, false, [48, 46, 49, 46, 50]⟩
        ⟨false, false⟩).result = .ok (true, ⟨true, true⟩)) :=
  ⟨(versionsMatch_comparison [48, 46, 49, 46, 50] ⟨true, true, true, 1, false, [48, 46, 49]⟩
      ⟨false, false⟩ rfl rfl rfl rfl rfl rfl rfl (by decide) (by decide)).2.2.2 (by decide),
    (versionsMatch_comparison [48, 46, 49, 46, 50]
      ⟨true, true, true, 1, false, [48, 46, 49, 46, 50]⟩
      ⟨false, false⟩ rfl rfl rfl rfl rfl rfl rfl (by decide) (by decide)).1.mpr rfl⟩

/-- Claim C8: in the checking path (snapshot set, state Unchecked) the gate
issues at most one query per call, exactly one on every path that reaches
`SPI_execute`; an SPI connection failure (detected before the query), a
wrong result shape, a row count other than one, or a null value each raise
the corresponding fatal error, and the query succeeds with exactly one
query issued otherwise. -/
theorem versionsMatch_query_strictness (binary : List Nat) (env : GateEnv) (st : VersionState)
    (hs : env.snapshot_set = true) (hchk : st.version_checked = false) :
    (VersionsMatch binary env st).queries ≤ 1
    ∧ (env.connect_ok = false →
        (VersionsMatch binary env st).result = .error .connectFail
        ∧ (VersionsMatch binary env st).queries = 0)
    ∧ (env.connect_ok = true → env.exec_ok = false →
        (VersionsMatch binary env st).result = .error .execFail
        ∧ (VersionsMatch binary env st).queries = 1)
    ∧ (env.connect_ok = true → env.exec_ok = true → env.processed ≠ 1 →
        (VersionsMatch binary env st).result = .error .badRowCount
        ∧ (VersionsMatch binary env st).queries = 1)
    ∧ (env.connect_ok = true → env.exec_ok = true → env.processed = 1 → env.isnull = true →
        (VersionsMatch binary env st).result = .error .nullVersion
        ∧ (VersionsMatch binary env st).queries = 1)
    ∧ (env.connect_ok = true → env.exec_ok = true → env.processed = 1 → env.isnull = false →
        (VersionsMatch binary env st).queries = 1
        ∧ ∃ b st2, (VersionsMatch binary env st).result = .ok (b, st2)) := by
  obtain ⟨snap, conn, ex, proc, nul, ver⟩ := env
  simp only at hs
  subst hs
  refine ⟨?_, ?_, ?_, ?_, ?_, ?_⟩ <;>
    cases conn <;> cases ex <;> cases nul <;> by_cases hp : proc = 1 <;>
      simp [VersionsMatch, hchk, hp]

/-- Witness for claim C8: a concrete all-good call (one row, non-null,
matching version `1.0.0`) issues exactly one query and returns a value. -/
theorem versionsMatch_query_strictness_witness :
    (VersionsMatch [49, 46, 48, 46, 48] ⟨true, true, true, 1, false, [49, 46, 48, 46, 48]⟩
        ⟨false, false⟩).queries = 1
    ∧ ∃ b st2,
        (VersionsMatch [49, 46, 48, 46, 48] ⟨true, true, true, 1, false, [49, 46, 48, 46, 48]⟩
          ⟨false, false⟩).result = .ok (b, st2) :=
  (versionsMatch_query_strictness [49, 46, 48, 46, 48]
      ⟨true, true, true, 1, false, [49, 46, 48, 46, 48]⟩
      ⟨false, false⟩ rfl rfl).2.2.2.2.2 rfl rfl rfl rfl

/-- Little-endian base-256 value of a byte list: byte `i` of the list lands
in the `i`-th lowest-order byte of the resulting integer. -/
def bytesToNatLE : List Nat → Nat
  | [] => 0
  | b :: bs => b + 256 * bytesToNatLE bs

/-- `GetUsearchLabel` from `src/hnsw/utils.c`: the 64-bit label starts as
`0` and `memcpy` places the 6 bytes of the `ItemPointer` into its low-order
bytes (little-endian host layout); the high-order bytes of the label stay
zero.  The identifier is modelled as its byte sequence. -/
def GetUsearchLabel (itemPtr : List Nat) : Nat :=
  bytesToNatLE (itemPtr.take 6)

/-- A byte list with all bytes below 256 encodes to a value below
`256 ^ length`. -/
theorem bytesToNatLE_lt (p : List Nat) (hp : ∀ b ∈ p, b < 256) :
    bytesToNatLE p < 256 ^ p.length := by
  induction p with
  | nil => simp [bytesToNatLE]
  | cons b bs ih =>
    have hb : b < 256 := hp b (List.mem_cons_self b bs)
    have hbs := ih fun x hx => hp x (List.mem_cons_of_mem b hx)
    simp only [bytesToNatLE, List.length_cons, pow_succ]
    calc b + 256 * bytesToNatLE bs < 256 * (bytesToNatLE bs + 1) := by omega
      _ ≤ 256 * 256 ^ bs.length := Nat.mul_le_mul_left 256 hbs
      _ = 256 ^ bs.length * 256 := Nat.mul_comm _ _

/-- Base-256 encoding is injective on equal-length byte lists. -/
theorem bytesToNatLE_injOn : ∀ p q : List Nat, p.length = q.length →
    (∀ b ∈ p, b < 256) → (∀ b ∈ q, b < 256) →
    bytesToNatLE p = bytesToNatLE q → p = q := by
  intro p
  induction p with
  | nil =>
    intro q hlen _ _ _
    cases q with
    | nil => rfl
    | cons b bs => simp at hlen
  | cons a as ih =>
    intro q hlen hp hq h
    cases q with
    | nil => simp at hlen
    | cons b bs =>
      have ha : a < 256 := hp a (List.mem_cons_self a as)
      have hb : b < 256 := hq b (List.mem_cons_self b bs)
      simp only [bytesToNatLE] at h
      have hab : a = b := by omega
      subst hab
      have htail : bytesToNatLE as = bytesToNatLE bs := by omega
      simp only [List.length_cons, Nat.add_right_cancel_iff] at hlen
      rw [ih bs hlen (fun x hx => hp x (List.mem_cons_of_mem a hx))
        (fun x hx => hq x (List.mem_cons_of_mem a hx)) htail]

/-- Byte `i` of the base-256 encoding recovers list entry `i` verbatim. -/
theorem bytesToNatLE_getByte : ∀ p : List Nat, (∀ b ∈ p, b < 256) →
    ∀ i, i < p.length → bytesToNatLE p / 256 ^ i % 256 = p.getD i 0 := by
  intro p
  induction p with
  | nil =>
    intro _ i hi
    simp at hi
  | cons a as ih =>
    intro hp i hi
    have ha : a < 256 := hp a (List.mem_cons_self a as)
    cases i with
    | zero =>
      simp [bytesToNatLE, Nat.add_mul_mod_self_left, Nat.mod_eq_of_lt ha]
    | succ j =>
      have hdiv : (a + 256 * bytesToNatLE as) / 256 = bytesToNatLE as := by
        rw [Nat.add_mul_div_left _ _ (by norm_num : (0 : Nat) < 256),
          Nat.div_eq_of_lt ha, Nat.zero_add]
      have hstep : bytesToNatLE (a :: as) / 256 ^ (j + 1) = bytesToNatLE as / 256 ^ j := by
        rw [pow_succ', ← Nat.div_div_eq_div_mul]
        simp only [bytesToNatLE]
        rw [hdiv]
      rw [hstep, List.getD_cons_succ]
      exact ih (fun x hx => hp x (List.mem_cons_of_mem a hx)) j (by
        simp only [List.length_cons] at hi
        omega)

/-- Claim C4: for 6-byte row identifiers, `GetUsearchLabel` is injective —
distinct identifiers never produce equal labels — and the produced label
holds the identifier's 6 bytes verbatim in its low-order bytes (byte `i` of
the label is byte `i` of the identifier) while every higher-order byte of
the label is zero. -/
theorem getUsearchLabel_codec (p q : List Nat)
    (hp6 : p.length = 6) (hq6 : q.length = 6)
    (hp : ∀ b ∈ p, b < 256) (hq : ∀ b ∈ q, b < 256) :
    (GetUsearchLabel p = GetUsearchLabel q → p = q)
    ∧ (∀ i, i < 6 → GetUsearchLabel p / 256 ^ i % 256 = p.getD i 0)
    ∧ (∀ i, 6 ≤ i → GetUsearchLabel p / 256 ^ i % 256 = 0) := by
  have hpt : p.take 6 = p := by rw [← hp6]; exact List.take_length p
  have hqt : q.take 6 = q := by rw [← hq6]; exact List.take_length q
  refine ⟨?_, ?_, ?_⟩
  · intro h
    refine bytesToNatLE_injOn p q (by omega) hp hq ?_
    simpa [GetUsearchLabel, hpt, hqt] using h
  · intro i hi
    have hbyte := bytesToNatLE_getByte p hp i (by omega)
    simpa [GetUsearchLabel, hpt] using hbyte
  · intro i hi
    have hlt : GetUsearchLabel p < 256 ^ 6 := by
      have hb := bytesToNatLE_lt p hp
      rw [hp6] at hb
      simpa [GetUsearchLabel, hpt] using hb
    have hlt2 : GetUsearchLabel p < 256 ^ i :=
      lt_of_lt_of_le hlt (Nat.pow_le_pow_right (by norm_num) hi)
    simp [Nat.div_eq_of_lt hlt2]

/-- Witness for claim C4: the codec applied to the concrete identifiers
`[1, 2, 3, 4, 5, 6]` and `[6, 5, 4, 3, 2, 1]`. -/
theorem getUsearchLabel_codec_witness :
    (GetUsearchLabel [1, 2, 3, 4, 5, 6] = GetUsearchLabel [6, 5, 4, 3, 2, 1] →
        [1, 2, 3, 4, 5, 6] = [6, 5, 4, 3, 2, 1])
    ∧ (∀ i, i < 6 →
        GetUsearchLabel [1, 2, 3, 4, 5, 6] / 256 ^ i % 256 = [1, 2, 3, 4, 5, 6].getD i 0)
    ∧ (∀ i, 6 ≤ i → GetUsearchLabel [1, 2, 3, 4, 5, 6] / 256 ^ i % 256 = 0) :=
  getUsearchLabel_codec [1, 2, 3, 4, 5, 6] [6, 5, 4, 3, 2, 1]
    (by decide) (by decide) (by decide) (by decide)

/-- Metric kinds of the external usearch engine (usearch.h is an external
collaborator; only the distinctness of the kinds matters here). -/
inductive MetricKind where
  | unknown_k
  | cos_k
  | l2sq_k
  | hamming_k
deriving DecidableEq

/-- Scalar (quantization) kinds of the external usearch engine. -/
inductive ScalarKind where
  | f32_k
  | f64_k
  | f16_k
  | i8_k
deriving DecidableEq

/-- The per-index configuration read through the accessors
`ldb_HnswGetM`, `ldb_HnswGetEfConstruction`, `ldb_HnswGetEf` and
`ldb_HnswGetMetricKind` (options.c, an external collaborator of
`src/hnsw/utils.c`). -/
structure IndexConfig where
  m : Nat
  ef_construction : Nat
  ef : Nat
  metric_kind : MetricKind
deriving DecidableEq

/-- The engine's `usearch_init_options_t` record, with exactly the fields
`src/hnsw/utils.c` manipulates and logs: metric kind, metric function
pointer (`none` models the NULL pointer), quantization, dimensions,
connectivity, expansion_add and expansion_search. -/
structure UsearchInitOptions where
  metric_kind : MetricKind
  metric : Option Unit
  quantization : ScalarKind
  dimensions : Nat
  connectivity : Nat
  expansion_add : Nat
  expansion_search : Nat
deriving DecidableEq

/-- `PopulateUsearchOpts` from `src/hnsw/utils.c`: writes the six fields
connectivity, expansion_add, expansion_search, metric_kind, metric and
quantization of the options record and touches nothing else. -/
def PopulateUsearchOpts (index : IndexConfig) (opts : UsearchInitOptions) : UsearchInitOptions :=
  { opts with
    connectivity := index.m,
    expansion_add := index.ef_construction,
    expansion_search := index.ef,
    metric_kind := index.metric_kind,
    metric := none,
    quantization := .f32_k }

/-- Claim C9: for every index configuration and every prior options record,
`PopulateUsearchOpts` produces connectivity = M, expansion_add =
ef_construction, expansion_search = ef, metric_kind = the declared metric,
metric pointer unset (NULL), and quantization fixed to f32 — in particular
configuration (M=16, ef_construction=128, ef=64, metric=cosine) yields
exactly those values. -/
theorem populateUsearchOpts_projection (index : IndexConfig) (opts : UsearchInitOptions) :
    (PopulateUsearchOpts index opts).connectivity = index.m
    ∧ (PopulateUsearchOpts index opts).expansion_add = index.ef_construction
    ∧ (PopulateUsearchOpts index opts).expansion_search = index.ef
    ∧ (PopulateUsearchOpts index opts).metric_kind = index.metric_kind
    ∧ (PopulateUsearchOpts index opts).metric = none
    ∧ (PopulateUsearchOpts index opts).quantization = ScalarKind.f32_k :=
  ⟨rfl, rfl, rfl, rfl, rfl, rfl⟩

/-- Claim C10: `PopulateUsearchOpts` writes only the six listed fields; the
`dimensions` field — the only other field of the options record — keeps
whatever value it held before the call, so the caller must set it itself. -/
theorem populateUsearchOpts_frame (index : IndexConfig) (opts : UsearchInitOptions) :
    (PopulateUsearchOpts index opts).dimensions = opts.dimensions :=
  rfl

/-- PostgreSQL type oid of `float4` (pg_type.dat). -/
def FLOAT4OID : Nat := 700

/-- PostgreSQL type oid of `int4` (pg_type.dat). -/
def INT4OID : Nat := 23

/-- An input `ArrayType` value: the observed element-type oid plus the raw
32-bit element words of its data area. -/
structure PgArrayType where
  elemtype : Nat
  data : List Nat
deriving DecidableEq

/-- A produced float4 value: either a word taken unchanged from a float4
array's storage, or the result of the C `int32 → float4` standard
conversion applied to a signed 32-bit value. -/
inductive F4 where
  | ofBits (w : Nat)
  | ofInt (i : Int)
deriving DecidableEq

/-- Result buffer of `ToFloat4Array`: either the input array's own data
storage returned without copying, or a freshly `palloc`-ed array. -/
inductive Float4Buffer where
  | borrowed (words : List Nat)
  | fresh (vals : List F4)
deriving DecidableEq

/-- Signed reading of a raw 32-bit word, as the C `int32` load. -/
def toInt32 (w : Nat) : Int :=
  if w < 2 ^ 31 then (w : Int) else (w : Int) - 2 ^ 32

/-- `ToFloat4Array` from `src/hnsw/utils.c`: float4 input is returned as
the array's own storage (zero copy); int4 input yields a freshly allocated
array with each element converted `int32 → float4` in order; any other
element type is the fatal `unsupported element type` error carrying the
offending oid, and produces nothing. -/
def ToFloat4Array (arr : PgArrayType) : Except Nat Float4Buffer :=
  if arr.elemtype = FLOAT4OID then
    .ok (.borrowed arr.data)
  else if arr.elemtype = INT4OID then
    .ok (.fresh (arr.data.map fun w => F4.ofInt (toInt32 w)))
  else
    .error arr.elemtype

/-- Mapping the conversion over the words commutes with positional lookup. -/
theorem getD_map_ofInt : ∀ (l : List Nat) (i : Nat), i < l.length →
    (l.map fun w => F4.ofInt (toInt32 w)).getD i (F4.ofInt 0) =
      F4.ofInt (toInt32 (l.getD i 0)) := by
  intro l
  induction l with
  | nil =>
    intro i hi
    simp at hi
  | cons a as ih =>
    intro i hi
    cases i with
    | zero => simp
    | succ j =>
      simp only [List.map_cons, List.getD_cons_succ]
      exact ih j (by simp only [List.length_cons] at hi; omega)

/-- Claim C7: if the element type is float4, `ToFloat4Array` returns the
input array's own data storage without allocating; if it is int4, it
returns a freshly allocated array with exactly one float4 per input
element, each obtained by the standard integer-to-float conversion, with
order and count preserved; for any other element type it fails fatally
with an error identifying the offending type oid and produces no partial
result. -/
theorem toFloat4Array_normalizer (arr : PgArrayType) :
    (arr.elemtype = FLOAT4OID → ToFloat4Array arr = .ok (.borrowed arr.data))
    ∧ (arr.elemtype = INT4OID →
        ∃ vals : List F4,
          ToFloat4Array arr = .ok (.fresh vals)
          ∧ vals.length = arr.data.length
          ∧ ∀ i, i < arr.data.length →
              vals.getD i (F4.ofInt 0) = F4.ofInt (toInt32 (arr.data.getD i 0)))
    ∧ (arr.elemtype ≠ FLOAT4OID → arr.elemtype ≠ INT4OID →
        ToFloat4Array arr = .error arr.elemtype) := by
  refine ⟨fun hf => ?_, fun hi => ?_, fun hf hi => ?_⟩
  · simp [ToFloat4Array, hf]
  · refine ⟨arr.data.map fun w => F4.ofInt (toInt32 w), ?_, by simp, ?_⟩
    · have hne : arr.elemtype ≠ FLOAT4OID := by
        rw [hi]
        simp [INT4OID, FLOAT4OID]
      simp [ToFloat4Array, hne, hi, INT4OID, FLOAT4OID]
    · intro i hilt
      exact getD_map_ofInt arr.data i hilt
  · simp [ToFloat4Array, hf, hi]

/-- Witness for claim C7: the int4 array `[1, 2, 3]` converts to the fresh
float4 array `[1.0, 2.0, 3.0]` in order; a float4 array is returned as its
own storage; the unsupported oid 25 (`text`) fails naming that oid. -/
theorem toFloat4Array_normalizer_witness :
    ToFloat4Array ⟨23, [1, 2, 3]⟩ = .ok (.fresh [.ofInt 1, .ofInt 2, .ofInt 3])
    ∧ ToFloat4Array ⟨700, [5, 6]⟩ = .ok (.borrowed [5, 6])
    ∧ ToFloat4Array ⟨25, [7]⟩ = .error 25 := by
  refine ⟨?_, (toFloat4Array_normalizer ⟨700, [5, 6]⟩).1 rfl,
    (toFloat4Array_normalizer ⟨25, [7]⟩).2.2 (by decide) (by decide)⟩
  obtain ⟨vals, hrun, hlen, helem⟩ := (toFloat4Array_normalizer ⟨23, [1, 2, 3]⟩).2.1 rfl
  rw [hrun]
  have hv : vals = [.ofInt 1, .ofInt 2, .ofInt 3] := by
    have h0 := helem 0 (by decide)
    have h1 := helem 1 (by decide)
    have h2 := helem 2 (by decide)
    simp only [List.length_cons, List.length_nil] at hlen
    match vals, hlen with
    | [x0, x1, x2], _ =>
      simp only [List.getD_cons_zero, List.getD_cons_succ] at h0 h1 h2
      rw [h0, h1, h2]
      decide
  rw [hv]

/-- Engine metadata returned by `usearch_metadata`: dimensions plus the
per-node and per-level neighbor-list sizing facts (the usearch engine is an
external collaborator of `src/hnsw/utils.c`). -/
structure UsearchMetadata where
  dimensions : Nat
  neighbors_base_bytes : Nat
  neighbors_bytes : Nat
deriving DecidableEq

/-- Modelled from the spec: `UsearchNodeBytes` is defined in
external_index.c, which is not under src/; per the spec it is "a
node-byte-cost function taking (vector byte size, layer count) and
returning total bytes for one node" that "accounts for per-layer
neighbor-list overhead plus one base-layer vector payload". -/
def UsearchNodeBytes (meta : UsearchMetadata) (vector_bytes : Nat) (level : Nat) : Nat :=
  meta.neighbors_base_bytes + meta.neighbors_bytes * level + vector_bytes

/-- The layer-count estimate of `CheckMem`: `(int)round(mL + 1)` with
`mL = 1 / log(M)`, the C `double` arithmetic idealised over the reals. -/
noncomputable def hnswMeanLayers (m : Nat) : Int :=
  round (1 / Real.log m + 1)

/-- The per-node byte estimate of `CheckMem` for connectivity `m`:
`UsearchNodeBytes(&meta, meta.dimensions * sizeof(float), (int)round(mL + 1))`. -/
noncomputable def projectedNodeSize (meta : UsearchMetadata) (m : Nat) : Nat :=
  UsearchNodeBytes meta (meta.dimensions * 4) (hnswMeanLayers m).toNat

/-- The `node_size` local of `CheckMem`: zero when no index is supplied,
otherwise the per-node estimate held in a `uint32`. -/
noncomputable def checkMemNodeSize (index : Option IndexConfig) (meta : UsearchMetadata) : Nat :=
  match index with
  | none => 0
  | some idx => projectedNodeSize meta idx.m % 2 ^ 32

/-- Projected incremental bytes `node_size * n_nodes` exactly as the
`uint32` multiplication inside `CheckMem`'s comparison computes them. -/
noncomputable def projectedBytes (meta : UsearchMetadata) (m : Nat) (n_nodes : Nat) : Nat :=
  (projectedNodeSize meta m % 2 ^ 32) * n_nodes % 2 ^ 32

/-- `CheckMem` from `src/hnsw/utils.c`: computes `node_size` (zero without
an index handle), adds the `uint32` product `node_size * n_nodes` to the
process's attributed memory `pg_mem` (a 64-bit `Size`), compares against
`(uint32)limit * 1024UL`, and emits the single caller-supplied warning when
the budget is exceeded; it returns the list of emitted warnings and has no
fatal exit. -/
noncomputable def CheckMem (limit : Int) (index : Option IndexConfig) (meta : UsearchMetadata)
    (pg_mem : Nat) (n_nodes : Nat) (msg : String) : List String :=
  if (pg_mem + checkMemNodeSize index meta * n_nodes % 2 ^ 32) % 2 ^ 64
      > (limit % (2 ^ 32 : Int)).toNat * 1024 then [msg] else []

/-- Numeric bound feeding the layer-count evaluations: `e ^ 2 < 8`. -/
theorem exp_two_lt_eight : Real.exp 2 < 8 := by
  have h := Real.exp_one_lt_d9
  have h2 : Real.exp 2 = Real.exp 1 * Real.exp 1 := by
    rw [← Real.exp_add]
    norm_num
  have hpos : (0 : ℝ) < Real.exp 1 := Real.exp_pos 1
  rw [h2]
  nlinarith [h, hpos]

/-- For `8 ≤ M` the estimated layer count `round(1/ln M + 1)` is exactly 1
(since `ln M > 2` makes the fractional part less than one half). -/
theorem hnswMeanLayers_eq_one (m : Nat) (hm : 8 ≤ m) : hnswMeanLayers m = 1 := by
  have hm8 : (8 : ℝ) ≤ (m : ℝ) := by exact_mod_cast hm
  have hmpos : (0 : ℝ) < (m : ℝ) := by linarith
  have hlog : 2 < Real.log m := by
    rw [Real.lt_log_iff_exp_lt hmpos]
    exact lt_of_lt_of_le exp_two_lt_eight hm8
  have hlogpos : (0 : ℝ) < Real.log m := by linarith
  have hinv : (0 : ℝ) < 1 / Real.log m := by positivity
  have hinv2 : 1 / Real.log m < 1 / 2 := by
    rw [div_lt_div_iff₀ hlogpos (by norm_num : (0 : ℝ) < 2)]
    linarith
  unfold hnswMeanLayers
  rw [round_eq, Int.floor_eq_iff]
  constructor
  · push_cast
    linarith
  · push_cast
    linarith

/-- The rounded layer-count estimate is antitone in M for `M ≥ 2`. -/
theorem hnswMeanLayers_antitone (m1 m2 : Nat) (h2 : 2 ≤ m1) (h12 : m1 ≤ m2) :
    hnswMeanLayers m2 ≤ hnswMeanLayers m1 := by
  have h2r : (2 : ℝ) ≤ (m1 : ℝ) := by exact_mod_cast h2
  have hm12 : (m1 : ℝ) ≤ (m2 : ℝ) := by exact_mod_cast h12
  have hl1 : (0 : ℝ) < Real.log m1 := Real.log_pos (by linarith)
  have hle : Real.log m1 ≤ Real.log m2 := Real.log_le_log (by linarith) hm12
  have hinv : 1 / Real.log m2 ≤ 1 / Real.log m1 := one_div_le_one_div_of_le hl1 hle
  unfold hnswMeanLayers
  rw [round_eq, round_eq]
  exact Int.floor_le_floor (by linarith)

/-- The per-node byte estimate is antitone in M for `M ≥ 2`: a smaller M
gives at least as many estimated layers and hence at least as many
per-layer neighbor bytes. -/
theorem projectedNodeSize_antitone (meta : UsearchMetadata) (m1 m2 : Nat)
    (h2 : 2 ≤ m1) (h12 : m1 ≤ m2) :
    projectedNodeSize meta m2 ≤ projectedNodeSize meta m1 := by
  have hl := hnswMeanLayers_antitone m1 m2 h2 h12
  have hln : (hnswMeanLayers m2).toNat ≤ (hnswMeanLayers m1).toNat := Int.toNat_le_toNat hl
  unfold projectedNodeSize UsearchNodeBytes
  exact Nat.add_le_add_right
    (Nat.add_le_add_left (Nat.mul_le_mul_left meta.neighbors_bytes hln) _) _

/-- Unfolding equation for `projectedBytes`, stated on variables so that
concrete instances can be rewritten without evaluating the layer
estimate. -/
theorem projectedBytes_def (meta : UsearchMetadata) (m n : Nat) :
    projectedBytes meta m n = (projectedNodeSize meta m % 2 ^ 32) * n % 2 ^ 32 := rfl

/-- Claim C6 (amended): with a positive node size and no `uint32` overflow
of `node_size * n_nodes`, the projected incremental bytes strictly increase
with n_nodes; and for a fixed n_nodes the projected bytes weakly increase
as M decreases (distinct M may share the rounded layer count
`round(1/ln M + 1)`, which is antitone in M). -/
theorem projectedBytes_monotone :
    (∀ (meta : UsearchMetadata) (m n1 n2 : Nat),
        0 < projectedNodeSize meta m → projectedNodeSize meta m * n2 < 2 ^ 32 →
        n1 < n2 → projectedBytes meta m n1 < projectedBytes meta m n2)
    ∧ (∀ (meta : UsearchMetadata) (m1 m2 n : Nat),
        2 ≤ m1 → m1 ≤ m2 → projectedNodeSize meta m1 * n < 2 ^ 32 →
        projectedBytes meta m2 n ≤ projectedBytes meta m1 n) := by
  constructor
  · intro meta m n1 n2 hpos hbound h12
    have hsle : projectedNodeSize meta m ≤ projectedNodeSize meta m * n2 := by
      calc projectedNodeSize meta m = projectedNodeSize meta m * 1 := (Nat.mul_one _).symm
        _ ≤ projectedNodeSize meta m * n2 := Nat.mul_le_mul_left _ (by omega)
    have hs : projectedNodeSize meta m < 2 ^ 32 := lt_of_le_of_lt hsle hbound
    have hmul : projectedNodeSize meta m * n1 < projectedNodeSize meta m * n2 :=
      mul_lt_mul_of_pos_left h12 hpos
    unfold projectedBytes
    rw [Nat.mod_eq_of_lt hs, Nat.mod_eq_of_lt hbound,
      Nat.mod_eq_of_lt (lt_trans hmul hbound)]
    exact hmul
  · intro meta m1 m2 n h2 h12 hbound
    cases n with
    | zero => simp [projectedBytes]
    | succ k =>
      have hanti := projectedNodeSize_antitone meta m1 m2 h2 h12
      have hsle : projectedNodeSize meta m1 ≤ projectedNodeSize meta m1 * (k + 1) := by
        calc projectedNodeSize meta m1 = projectedNodeSize meta m1 * 1 := (Nat.mul_one _).symm
          _ ≤ projectedNodeSize meta m1 * (k + 1) := Nat.mul_le_mul_left _ (by omega)
      have hs1 : projectedNodeSize meta m1 < 2 ^ 32 := lt_of_le_of_lt hsle hbound
      have hs2 : projectedNodeSize meta m2 < 2 ^ 32 := lt_of_le_of_lt hanti hs1
      have hmul : projectedNodeSize meta m2 * (k + 1) ≤ projectedNodeSize meta m1 * (k + 1) :=
        Nat.mul_le_mul_right (k + 1) hanti
      unfold projectedBytes
      rw [Nat.mod_eq_of_lt hs1, Nat.mod_eq_of_lt hs2, Nat.mod_eq_of_lt hbound,
        Nat.mod_eq_of_lt (lt_of_le_of_lt hmul hbound)]
      exact hmul

/-- Witness for the amended claim C6 at concrete inputs: with per-level
neighbor cost 1 and M = 16 (node size 1), projected bytes grow strictly
from 1 node to 2 nodes, and lowering M from 16 to 8 cannot shrink them. -/
theorem projectedBytes_monotone_witness :
    projectedBytes ⟨0, 0, 1⟩ 16 1 < projectedBytes ⟨0, 0, 1⟩ 16 2
    ∧ projectedBytes ⟨0, 0, 1⟩ 16 1 ≤ projectedBytes ⟨0, 0, 1⟩ 8 1 := by
  have h16 := hnswMeanLayers_eq_one 16 (by norm_num)
  have h8 := hnswMeanLayers_eq_one 8 (by norm_num)
  have hs16 : projectedNodeSize ⟨0, 0, 1⟩ 16 = 1 := by
    norm_num [projectedNodeSize, UsearchNodeBytes, h16]
  have hs8 : projectedNodeSize ⟨0, 0, 1⟩ 8 = 1 := by
    norm_num [projectedNodeSize, UsearchNodeBytes, h8]
  exact ⟨projectedBytes_monotone.1 ⟨0, 0, 1⟩ 16 1 2 (by rw [hs16]; norm_num)
      (by rw [hs16]; norm_num) (by norm_num),
    projectedBytes_monotone.2 ⟨0, 0, 1⟩ 8 16 1 (by norm_num) (by norm_num)
      (by rw [hs8]; norm_num)⟩

/-- Claim C6 counterexample: (i) with node size 2048 bytes, growing n_nodes
from 2097151 to 2097152 makes the projected bytes of the code drop from
4294965248 to 0 (the `uint32` product wraps), so they do not strictly
increase with n_nodes; (ii) M = 8 and M = 16 share the rounded layer count
`round(1/ln M + 1) = 1`, so with per-level cost 1 the projected bytes are
equal rather than larger for the smaller M. -/
theorem projectedBytes_claim_counterexample :
    (2097151 < 2097152
      ∧ projectedBytes ⟨0, 2048, 0⟩ 16 2097152 < projectedBytes ⟨0, 2048, 0⟩ 16 2097151)
    ∧ (8 < 16 ∧ projectedBytes ⟨0, 0, 1⟩ 8 1 = projectedBytes ⟨0, 0, 1⟩ 16 1) := by
  have h16 := hnswMeanLayers_eq_one 16 (by norm_num)
  have h8 := hnswMeanLayers_eq_one 8 (by norm_num)
  have hbig : projectedNodeSize ⟨0, 2048, 0⟩ 16 = 2048 := by
    simp [projectedNodeSize, UsearchNodeBytes]
  have hone8 : projectedNodeSize ⟨0, 0, 1⟩ 8 = 1 := by
    simp [projectedNodeSize, UsearchNodeBytes, h8]
  have hone16 : projectedNodeSize ⟨0, 0, 1⟩ 16 = 1 := by
    simp [projectedNodeSize, UsearchNodeBytes, h16]
  refine ⟨⟨by norm_num, ?_⟩, by norm_num, ?_⟩
  · rw [projectedBytes_def, projectedBytes_def, hbig]
    norm_num
  · rw [projectedBytes_def, projectedBytes_def, hone8, hone16]

/-- Claim C5 (amended): `CheckMem` emits exactly the one caller-supplied
warning precisely when `pg_mem` plus the `uint32`-wrapped product
`node_size * n_nodes % 2^32` exceeds `(uint32)limit * 1024`, and in every
case it either emits that single warning or nothing — it is total and has
no fatal path.  (The modulus on the 64-bit sum is discharged by the
realistic bound `pg_mem < 2^63`.) -/
theorem checkMem_warning_spec (limit : Int) (index : Option IndexConfig)
    (meta : UsearchMetadata) (pg_mem : Nat) (n_nodes : Nat) (msg : String)
    (hmem : pg_mem < 2 ^ 63) :
    (CheckMem limit index meta pg_mem n_nodes msg = [msg]
      ↔ pg_mem + checkMemNodeSize index meta * n_nodes % 2 ^ 32
          > (limit % (2 ^ 32 : Int)).toNat * 1024)
    ∧ (CheckMem limit index meta pg_mem n_nodes msg = [msg]
        ∨ CheckMem limit index meta pg_mem n_nodes msg = []) := by
  have hprod : checkMemNodeSize index meta * n_nodes % 2 ^ 32 < 2 ^ 32 :=
    Nat.mod_lt _ (by norm_num)
  have hsum : pg_mem + checkMemNodeSize index meta * n_nodes % 2 ^ 32 < 2 ^ 64 := by omega
  unfold CheckMem
  rw [Nat.mod_eq_of_lt hsum]
  by_cases hcond : pg_mem + checkMemNodeSize index meta * n_nodes % 2 ^ 32
      > (limit % (2 ^ 32 : Int)).toNat * 1024
  · rw [if_pos hcond]
    exact ⟨⟨fun _ => hcond, fun _ => rfl⟩, Or.inl rfl⟩
  · rw [if_neg hcond]
    exact ⟨⟨fun h => absurd h.symm (List.cons_ne_nil msg []),
      fun h => absurd h hcond⟩, Or.inr rfl⟩

/-- Witness for the amended claim C5: a concrete call (no index handle,
zero memory, zero budget) evaluated through the theorem. -/
theorem checkMem_warning_spec_witness :
    (CheckMem 0 none ⟨0, 0, 0⟩ 0 0 "mem" = ["mem"]
      ↔ 0 + checkMemNodeSize none ⟨0, 0, 0⟩ * 0 % 2 ^ 32
          > ((0 : Int) % (2 ^ 32 : Int)).toNat * 1024)
    ∧ (CheckMem 0 none ⟨0, 0, 0⟩ 0 0 "mem" = ["mem"]
        ∨ CheckMem 0 none ⟨0, 0, 0⟩ 0 0 "mem" = []) :=
  checkMem_warning_spec 0 none ⟨0, 0, 0⟩ 0 0 "mem" (by norm_num)

/-- Claim C5 counterexample: with node size 2048 bytes and n_nodes = 2^21
the true projected increment is 2^32 bytes, far above the 1-KiB budget with
pg_mem = 0, yet the `uint32` product wraps to zero and `CheckMem` emits no
warning — so the claimed condition (true sum exceeds budget) does not
coincide with the code's behaviour. -/
theorem checkMem_claim_counterexample :
    checkMemNodeSize (some ⟨16, 128, 64, .cos_k⟩) ⟨0, 2048, 0⟩ = 2048
    ∧ 0 + 2048 * 2097152 > ((1 : Int) % (2 ^ 32 : Int)).toNat * 1024
    ∧ CheckMem 1 (some ⟨16, 128, 64, .cos_k⟩) ⟨0, 2048, 0⟩ 0 2097152 "mem" = [] := by
  have hns : checkMemNodeSize (some ⟨16, 128, 64, .cos_k⟩) ⟨0, 2048, 0⟩ = 2048 := by
    norm_num [checkMemNodeSize, projectedNodeSize, UsearchNodeBytes]
  refine ⟨hns, by norm_num, ?_⟩
  unfold CheckMem
  rw [hns]
  norm_num
